import Mathlib

/-!
Verification development for the retrieval-augmented answering pipeline:
the document chunker (`DocProcessor` in src/doc_processing.py and
`DocumentProcessor` in src/document_utils.py), the vector-store retrieval
pipeline (`SimpleRAG` in src/rag_app.py and `CoreRAG` in src/core_rag.py),
and the answer-generation contract.

Texts are embedded as `List Char`; the splitter, the store and the two
collaborators (embedding, chat) that live outside src/ are modelled from the
specification, as noted on each definition.
-/

namespace RagSpec

open List

/-! ## TextChunker (spec-modelled, the splitting itself lives in the external
`RecursiveCharacterTextSplitter` which is not part of src/) -/

/-- Trailing `n` elements of a list. The chunker starts a fresh chunk by
"re-including the trailing overlap characters of the previous chunk". -/
def lastN (n : Nat) (l : List Char) : List Char :=
  l.drop (l.length - n)

/-- Modelled from the spec: the occurrence test used to "take the first
separator in the priority list that actually occurs in `text`". -/
def containsSeq (sep : List Char) : List Char → Bool
  | [] => sep.isEmpty
  | c :: cs => sep.isPrefixOf (c :: cs) || containsSeq sep cs

/-- Modelled from the spec: split `text` on the chosen separator into ordered
pieces; the separator occurrences themselves are dropped ("separators are
dropped in the output chunks but drive only where to cut").  The fuel
argument bounds the recursion; callers pass the text length. -/
def splitOnSepAux (sep : List Char) : Nat → List Char → List (List Char)
  | _, [] => [[]]
  | 0, c :: cs => [c :: cs]
  | fuel + 1, c :: cs =>
    if !sep.isEmpty && sep.isPrefixOf (c :: cs) then
      [] :: splitOnSepAux sep fuel (List.drop sep.length (c :: cs))
    else
      match splitOnSepAux sep fuel cs with
      | [] => [[c]]
      | p :: ps => (c :: p) :: ps

/-- Split on a separator, dropping its occurrences. -/
def splitOnSep (sep text : List Char) : List (List Char) :=
  splitOnSepAux sep text.length text

/-- Modelled from the spec: hard character slicing, the ultimate fallback when
no separator helps.  Emits `maxSize`-character slices advancing by `stride`
characters (so consecutive slices share `maxSize - stride` characters).  The
fuel argument bounds the recursion; callers pass the text length. -/
def hardSliceAux (maxSize stride : Nat) : Nat → List Char → List (List Char)
  | _, [] => []
  | 0, c :: cs => [c :: cs]
  | fuel + 1, c :: cs =>
    if (c :: cs).length ≤ maxSize then [c :: cs]
    else (c :: cs).take maxSize :: hardSliceAux maxSize stride fuel ((c :: cs).drop stride)

/-- Hard character slicing at `maxSize` boundaries with `overlap` characters
re-included at the start of each subsequent slice. -/
def hardSlice (maxSize overlap : Nat) (text : List Char) : List (List Char) :=
  hardSliceAux maxSize (maxSize - overlap) text.length text

/-- Modelled from the spec, step 4 and step 5: greedily merge consecutive
pieces into a running chunk until adding the next piece would exceed
`maxSize`; on emitting a chunk, re-include its trailing `overlap` characters
(capped so the hard `maxSize` bound is kept) at the start of the next chunk;
a single piece that itself exceeds `maxSize` is handed to `recurse`
(recursion with the remaining separators). -/
def mergeLoop (recurse : List Char → List (List Char)) (maxSize overlap : Nat) :
    List Char → List (List Char) → List (List Char)
  | cur, [] => if cur.isEmpty then [] else [cur]
  | cur, p :: ps =>
    if p.length ≤ maxSize then
      if cur.length + p.length ≤ maxSize then
        mergeLoop recurse maxSize overlap (cur ++ p) ps
      else
        cur :: mergeLoop recurse maxSize overlap
          (lastN (min overlap (maxSize - p.length)) cur ++ p) ps
    else
      (if cur.isEmpty then [] else [cur]) ++ recurse p ++
        mergeLoop recurse maxSize overlap [] ps

/-- Modelled from the spec (§4.1 TextChunker.split): if the text already fits
return it whole (empty text yields the empty sequence); otherwise split on the
first separator that occurs and greedily merge the pieces, recursing into any
oversized piece with the remaining separators; with the separator list
exhausted, fall back to hard character slicing. -/
def splitSeps (maxSize overlap : Nat) : List (List Char) → List Char → List (List Char)
  | [], text => hardSlice maxSize overlap text
  | sep :: rest, text =>
    if text.length ≤ maxSize then (if text.isEmpty then [] else [text])
    else if !sep.isEmpty && containsSeq sep text then
      mergeLoop (splitSeps maxSize overlap rest) maxSize overlap [] (splitOnSep sep text)
    else
      splitSeps maxSize overlap rest text

/-- Default separator priority of the splitter the source constructs:
paragraph break, line break, space, then raw characters (the empty-string
separator is realised by the hard-slicing fallback). -/
def defaultSeparators : List (List Char) :=
  [['\n', '\n'], ['\n'], [' ']]

/-- The chunker as configured by `DocProcessor.__init__`
(src/doc_processing.py): `text_splitter.split_text` with the default
separator priority. -/
def split_text (maxSize overlap : Nat) (text : List Char) : List (List Char) :=
  splitSeps maxSize overlap defaultSeparators text

/-! ## Chunk documents (src/doc_processing.py, src/document_utils.py) -/

structure ChunkMeta where
  source : String
  chunkId : Nat
  chunkCount : Nat

structure ChunkDoc where
  text : List Char
  metadata : ChunkMeta
  id : String

/-- Translated from `DocProcessor.chunk_text` (src/doc_processing.py) and the
identical `DocumentProcessor.chunk_text` (src/document_utils.py): split the
text, then wrap each chunk `i` with metadata `chunk_id = i`,
`chunk_count = len(chunks)` and identifier `"{source}_{i}"`. -/
def chunk_text (maxSize overlap : Nat) (source : String) (text : List Char) :
    List ChunkDoc :=
  let chunks := split_text maxSize overlap text
  chunks.enum.map fun p =>
    { text := p.2
      metadata := { source := source, chunkId := p.1, chunkCount := chunks.length }
      id := source ++ "_" ++ toString p.1 }

/-! ## Chunker construction (C8) -/

/-- Failure taxonomy entry for invalid chunking parameters (§7 of the spec). -/
inductive ChunkingError where
  | invalidParams

/-- Modelled from the spec: `DocProcessor.__init__` (src/doc_processing.py) and
`DocumentProcessor.__init__` (src/document_utils.py) forward `chunk_size` and
`chunk_overlap` to the external splitter constructor (not part of src/), which
per §7 raises a `ChunkingError` for `maxSize ≤ 0`, `overlap ≥ maxSize` or
`overlap < 0` before any splitting work begins; valid parameters yield a
configured chunker. -/
def DocProcessor.init (chunk_size chunk_overlap : Int) : Except ChunkingError (Nat × Nat) :=
  if chunk_size ≤ 0 ∨ chunk_overlap ≥ chunk_size ∨ chunk_overlap < 0 then
    Except.error ChunkingError.invalidParams
  else
    Except.ok (chunk_size.toNat, chunk_overlap.toNat)

/-! ## DocumentStore retrieval (C3) -/

/-- The persisted form of a document inside the store. -/
structure IndexEntry where
  id : String
  text : String
  metadata : List (String × String)
  embedding : List ℚ

/-- One formatted search hit, as assembled by `SimpleRAG.search_documents`
(src/rag_app.py): text, metadata, distance and id of a stored entry. -/
structure SearchResult where
  text : String
  metadata : List (String × String)
  distance : ℚ
  id : String

instance : DecidableRel (fun a b : SearchResult => a.distance ≤ b.distance) :=
  fun a b => inferInstanceAs (Decidable (a.distance ≤ b.distance))

instance : IsTotal SearchResult (fun a b => a.distance ≤ b.distance) :=
  ⟨fun a b => le_total a.distance b.distance⟩

instance : IsTrans SearchResult (fun a b => a.distance ≤ b.distance) :=
  ⟨fun _ _ _ hab hbc => le_trans hab hbc⟩

/-- Modelled from the spec: the nearest-neighbor lookup of the persistent
backend (the chromadb `collection.query`, not part of src/) — embed the
query, score every persisted entry with the fixed distance metric, return the
`n_results` nearest ordered ascending by distance.
`SimpleRAG.search_documents` (src/rag_app.py) wraps this lookup and formats
each hit, preserving the backend order. -/
def search_documents (dist : List ℚ → List ℚ → ℚ) (embed : String → List ℚ)
    (collection : List IndexEntry) (query : String) (n_results : Nat) : List SearchResult :=
  let query_embedding := embed query
  (List.insertionSort (fun a b => a.distance ≤ b.distance)
    (collection.map fun e =>
      { text := e.text
        metadata := e.metadata
        distance := dist query_embedding e.embedding
        id := e.id })).take n_results

/-! ## RetrievalPipeline (C4, C6, C7) -/

/-- The structured answer-with-sources record returned by `query`. -/
structure QueryResult where
  question : String
  answer : String
  sources : List SearchResult

/-- Translated from `CoreRAG.generate_response` (src/core_rag.py) and
`SimpleRAG.generate_response` (src/rag_app.py): the retrieved chunk texts are
concatenated in the order returned, joined by a blank line. -/
def context_join (context_docs : List SearchResult) : String :=
  String.intercalate ("\n\n") (context_docs.map SearchResult.text)

/-- Translated from the f-string prompt of `CoreRAG.generate_response`
(src/core_rag.py) and `SimpleRAG.generate_response` (src/rag_app.py). -/
def build_prompt (context query : String) : String :=
  "Based on the following context, please answer the question.\n\nContext:\n" ++ context ++
    "\n\nQuestion: " ++ query ++ "\n\nAnswer:"

/-- Translated from `CoreRAG.generate_response` (src/core_rag.py): build the
prompt from the joined context and hand it to the chat collaborator. -/
def CoreRAG.generate_response (chat : String → String) (query : String)
    (context_docs : List SearchResult) : String :=
  chat (build_prompt (context_join context_docs) query)

/-- Translated from `CoreRAG.query` (src/core_rag.py) and `SimpleRAG.query`
(src/rag_app.py): search, generate, and wrap question, answer and sources. -/
def CoreRAG.query (search : String → Nat → List SearchResult) (chat : String → String)
    (question : String) (n_results : Nat) : QueryResult :=
  let relevant_docs := search question n_results
  let response := CoreRAG.generate_response chat question relevant_docs
  { question := question, answer := response, sources := relevant_docs }

/-- The apostrophe character, kept out of string literals. -/
def apos : String :=
  String.mk [Char.ofNat 39]

/-- The system message content of `SimpleRAG.generate_response`
(src/rag_app.py): it holds the instruction to answer from the provided
context and to say so clearly when the context lacks relevant information. -/
def system_instruction : String :=
  "You are a helpful assistant. Answer questions based on the provided context. If the context doesn" ++
    apos ++ "t contain relevant information, say so clearly."

/-- Message roles of the chat completion call in `SimpleRAG.generate_response`
(src/rag_app.py). -/
inductive Role where
  | system
  | user

/-- One chat message handed to the completion endpoint. -/
structure ChatMessage where
  role : Role
  content : String

/-- Translated from `SimpleRAG.generate_response` (src/rag_app.py): the
collaborator receives the system instruction first, then the user prompt
(context block, literal question, answer cue). -/
def SimpleRAG.generate_messages (query : String) (context_docs : List SearchResult) :
    List ChatMessage :=
  [ { role := Role.system, content := system_instruction },
    { role := Role.user, content := build_prompt (context_join context_docs) query } ]

/-- Translated from `CoreRAG.generate_response` with a fallible chat
collaborator: the collaborator failure is not caught. -/
def CoreRAG.generate_responseE {ε : Type} (chat : String → Except ε String) (query : String)
    (context_docs : List SearchResult) : Except ε String :=
  chat (build_prompt (context_join context_docs) query)

/-- Translated from `CoreRAG.query` (src/core_rag.py) and `SimpleRAG.query`
(src/rag_app.py) with fallible collaborators: the `except` blocks of the
source only log and re-raise, so a failure of the search step or of the
generation step propagates uncaught, with no retry; on a generation failure
the result is the bare error, carrying none of the already-computed search
results. -/
def CoreRAG.queryE {ε : Type} (search : String → Nat → Except ε (List SearchResult))
    (chat : String → Except ε String) (question : String) (n_results : Nat) :
    Except ε QueryResult :=
  match search question n_results with
  | Except.error e => Except.error e
  | Except.ok relevant_docs =>
    match CoreRAG.generate_responseE chat question relevant_docs with
    | Except.error e => Except.error e
    | Except.ok response =>
      Except.ok { question := question, answer := response, sources := relevant_docs }

/-! ## Document insertion (C9, C10) -/

/-- Input shape of `SimpleRAG.add_documents` (src/rag_app.py): a dictionary
with `text`, optional `metadata` and optional `id`. -/
structure DocInput where
  text : String
  metadata : List (String × String)
  id : Option String

/-- The persisted record assembled by `SimpleRAG.add_documents`. -/
structure CollEntry where
  id : String
  text : String
  metadata : List (String × String)
  embedding : List ℚ

/-- Translated from the loop of `SimpleRAG.add_documents` (src/rag_app.py):
for each document at batch position `i`, the id defaults to `"doc_{i}"`, the
embedding is requested from the collaborator, and the first embedding failure
aborts the whole batch before anything is handed to the backend. -/
def buildBatch (embed : String → Except String (List ℚ)) :
    Nat → List DocInput → Except String (List CollEntry)
  | _, [] => Except.ok []
  | i, doc :: rest =>
    match embed doc.text with
    | Except.error e => Except.error e
    | Except.ok embedding =>
      match buildBatch embed (i + 1) rest with
      | Except.error e => Except.error e
      | Except.ok entries =>
        Except.ok ({ id := doc.id.getD ("doc_" ++ toString i)
                     text := doc.text
                     metadata := doc.metadata
                     embedding := embedding } :: entries)

/-- Translated from `SimpleRAG.add_documents` (src/rag_app.py): all
embeddings of the batch are computed first; only then is the single
`collection.add` call issued, appending every entry at once.  An embedding
failure therefore yields the bare error and the persisted collection is left
unchanged. -/
def SimpleRAG.add_documents (embed : String → Except String (List ℚ))
    (documents : List DocInput) (collection : List CollEntry) :
    Except String (List CollEntry) :=
  match buildBatch embed 0 documents with
  | Except.error e => Except.error e
  | Except.ok entries => Except.ok (collection ++ entries)

/-! ## Chunk size bound (C1) -/

theorem length_lastN (n : Nat) (l : List Char) : (lastN n l).length = min n l.length := by
  simp [lastN]
  omega

theorem hardSliceAux_length_le (maxSize stride : Nat) (hs : 0 < stride) :
    ∀ (fuel : Nat) (text : List Char), text.length ≤ fuel →
      ∀ c ∈ hardSliceAux maxSize stride fuel text, c.length ≤ maxSize := by
  intro fuel
  induction fuel with
  | zero =>
    intro text ht c hc
    match text, ht with
    | [], _ => simp [hardSliceAux] at hc
  | succ n ih =>
    intro text ht c hc
    match text with
    | [] => simp [hardSliceAux] at hc
    | x :: xs =>
      rw [hardSliceAux] at hc
      split at hc
      · next hsmall => simp only [List.mem_singleton] at hc; subst hc; exact hsmall
      · next hbig =>
        simp only [List.mem_cons] at hc
        rcases hc with rfl | hc
        · simp
        · refine ih _ ?_ c hc
          simp only [List.length_drop]
          simp only [not_le] at hbig
          simp only [List.length_cons] at ht hbig ⊢
          omega

theorem mergeLoop_length_le (recurse : List Char → List (List Char)) (maxSize overlap : Nat)
    (hrec : ∀ t, ∀ c ∈ recurse t, c.length ≤ maxSize) :
    ∀ (pieces : List (List Char)) (cur : List Char), cur.length ≤ maxSize →
      ∀ c ∈ mergeLoop recurse maxSize overlap cur pieces, c.length ≤ maxSize := by
  intro pieces
  induction pieces with
  | nil =>
    intro cur hcur c hc
    rw [mergeLoop] at hc
    split at hc
    · simp at hc
    · simp only [List.mem_singleton] at hc; subst hc; exact hcur
  | cons p ps ih =>
    intro cur hcur c hc
    rw [mergeLoop] at hc
    split at hc
    · next hp =>
      split at hc
      · next hfit =>
        refine ih _ ?_ c hc
        simpa using hfit
      · next hnofit =>
        simp only [List.mem_cons] at hc
        rcases hc with rfl | hc
        · exact hcur
        · refine ih _ ?_ c hc
          have hlast := length_lastN (min overlap (maxSize - p.length)) cur
          simp only [List.length_append]
          omega
    · next hp =>
      simp only [List.mem_append] at hc
      rcases hc with (hc | hc) | hc
      · split at hc
        · simp at hc
        · simp only [List.mem_singleton] at hc; subst hc; exact hcur
      · exact hrec p c hc
      · exact ih [] (by simp) c hc

theorem splitSeps_length_le (maxSize overlap : Nat) (ho : overlap < maxSize) :
    ∀ (seps : List (List Char)) (text : List Char),
      ∀ c ∈ splitSeps maxSize overlap seps text, c.length ≤ maxSize := by
  intro seps
  induction seps with
  | nil =>
    intro text c hc
    exact hardSliceAux_length_le maxSize _ (by omega) _ text le_rfl c hc
  | cons sep rest ih =>
    intro text c hc
    rw [splitSeps] at hc
    split at hc
    · next hsmall =>
      split at hc
      · simp at hc
      · simp only [List.mem_singleton] at hc; subst hc; exact hsmall
    · split at hc
      · exact mergeLoop_length_le _ maxSize overlap (fun t => ih t) _ [] (by simp) c hc
      · exact ih text c hc

/-- C1: for every text, every `chunkSize > 0` and every overlap with
`0 ≤ overlap < chunkSize`, every chunk produced by the chunker (configured
with `chunk_size = maxSize`, `chunk_overlap = overlap` and applied via
`chunk_text`) has length at most `maxSize`; the hard cap holds even for
un-splittable character runs, which are cut by character slicing. -/
theorem chunk_text_length_le (maxSize overlap : Nat) (source : String) (text : List Char)
    (hm : 0 < maxSize) (ho : overlap < maxSize) :
    ∀ d ∈ chunk_text maxSize overlap source text, d.text.length ≤ maxSize := by
  intro d hd
  simp only [chunk_text, List.mem_map] at hd
  obtain ⟨p, hp, rfl⟩ := hd
  rw [List.enum_eq_enumFrom] at hp
  exact splitSeps_length_le maxSize overlap ho _ text p.2 (List.snd_mem_of_mem_enumFrom hp)

/-- Witness for C1 at a concrete configuration. -/
theorem chunk_text_length_le_witness :
    0 < 3 ∧ 1 < 3 ∧
      ∀ d ∈ chunk_text 3 1 ("s") (("ab cd e").toList), d.text.length ≤ 3 :=
  ⟨by decide, by decide,
    chunk_text_length_le 3 1 ("s") (("ab cd e").toList) (by decide) (by decide)⟩

/-- C5: within one `chunk_text` call the chunk index values recorded in the
metadata (`chunk_id`) are, in order, exactly the contiguous range `[0, n)` —
the index of each document is its position among its siblings, with no duplicates
or gaps — and every document records `chunk_count = n`, the total number of
chunks produced from the source text. -/
theorem chunk_text_metadata_range (maxSize overlap : Nat) (source : String) (text : List Char) :
    (chunk_text maxSize overlap source text).map (fun d => d.metadata.chunkId) =
      List.range (chunk_text maxSize overlap source text).length ∧
    ∀ d ∈ chunk_text maxSize overlap source text,
      d.metadata.chunkCount = (chunk_text maxSize overlap source text).length := by
  constructor
  · simp only [chunk_text, List.map_map, List.length_map, List.enum_eq_enumFrom,
      List.enumFrom_length]
    rw [show ((fun d : ChunkDoc => d.metadata.chunkId) ∘ fun p : Nat × List Char =>
      ({ text := p.2,
         metadata := ⟨source, p.1, (split_text maxSize overlap text).length⟩,
         id := source ++ "_" ++ toString p.1 } : ChunkDoc)) =
      (Prod.fst : Nat × List Char → Nat) from rfl]
    rw [List.enumFrom_map_fst, List.range_eq_range']
  · intro d hd
    simp only [chunk_text, List.mem_map] at hd
    obtain ⟨p, hp, rfl⟩ := hd
    simp [chunk_text]

/-- Witness for C5 at a concrete input (the membership hypothesis in the
second conjunct is discharged at the single produced chunk). -/
theorem chunk_text_metadata_range_witness :
    (chunk_text 5 1 ("s") (("ab").toList)).map (fun d => d.metadata.chunkId) = [0] ∧
    ∀ d ∈ chunk_text 5 1 ("s") (("ab").toList), d.metadata.chunkCount = 1 := by
  have h := chunk_text_metadata_range 5 1 ("s") (("ab").toList)
  exact ⟨by simpa using h.1, by simpa using h.2⟩

/-! ## Reassembly (C2)

Because the splitter drops the separator occurrences at the cut points, full
lossless reconstruction fails; what holds is that, after removing suitable
inter-chunk overlaps (each at most `overlap` characters), the concatenation is
an order-preserving subsequence of the original text. -/

theorem splitOnSepAux_flatten_sublist (sep : List Char) :
    ∀ (fuel : Nat) (text : List Char),
      (splitOnSepAux sep fuel text).flatten <+ text := by
  intro fuel
  induction fuel with
  | zero =>
    intro text
    match text with
    | [] => simp [splitOnSepAux]
    | c :: cs => simp [splitOnSepAux]
  | succ n ih =>
    intro text
    match text with
    | [] => simp [splitOnSepAux]
    | c :: cs =>
      rw [splitOnSepAux]
      split
      · next hpre =>
        simp only [List.flatten_cons, List.nil_append]
        exact (ih _).trans (List.drop_sublist _ _)
      · next hpre =>
        cases h : splitOnSepAux sep n cs with
        | nil => simp
        | cons p ps =>
          have := ih cs
          rw [h] at this
          simp only [List.flatten_cons] at this ⊢
          exact this.cons₂ c

theorem splitOnSep_flatten_sublist (sep text : List Char) :
    (splitOnSep sep text).flatten <+ text :=
  splitOnSepAux_flatten_sublist sep text.length text

theorem zipWith_drop_replicate (overlap : Nat) :
    ∀ cs : List (List Char),
      List.zipWith List.drop (List.replicate cs.length overlap) cs =
        cs.map (List.drop overlap) := by
  intro cs
  induction cs with
  | nil => rfl
  | cons c cs ih => simp [List.replicate_succ, ih]

theorem hardSliceAux_head_eq (maxSize stride : Nat) :
    ∀ (fuel : Nat) (text : List Char) (c : List Char) (cs : List (List Char)),
      text.length ≤ fuel → hardSliceAux maxSize stride fuel text = c :: cs →
      c = text.take maxSize := by
  intro fuel text c cs ht h
  match fuel, text with
  | _, [] => simp [hardSliceAux] at h
  | 0, x :: xs => simp at ht
  | n + 1, x :: xs =>
    rw [hardSliceAux] at h
    split at h
    · next hsmall =>
      simp only [List.cons.injEq] at h
      rw [h.1.symm, List.take_of_length_le hsmall]
    · next hbig =>
      simp only [List.cons.injEq] at h
      exact h.1.symm

theorem hardSliceAux_reassemble (maxSize overlap : Nat) (ho : overlap < maxSize) :
    ∀ (fuel : Nat) (text : List Char), text.length ≤ fuel →
      (hardSliceAux maxSize (maxSize - overlap) fuel text = [] ∧ text = []) ∨
      (∃ c cs, hardSliceAux maxSize (maxSize - overlap) fuel text = c :: cs ∧
        c ++ (cs.map (List.drop overlap)).flatten = text) := by
  intro fuel
  induction fuel with
  | zero =>
    intro text ht
    match text, ht with
    | [], _ => exact Or.inl ⟨rfl, rfl⟩
  | succ n ih =>
    intro text ht
    match text with
    | [] => exact Or.inl ⟨rfl, rfl⟩
    | x :: xs =>
      rw [hardSliceAux]
      split
      · next hsmall => exact Or.inr ⟨x :: xs, [], rfl, by simp⟩
      · next hbig =>
        simp only [not_le] at hbig
        set t := x :: xs with ht_def
        set stride := maxSize - overlap with hstride
        have hstride1 : 0 < stride := by omega
        have hdlen : (t.drop stride).length ≤ n := by
          simp only [List.length_drop]
          omega
        rcases ih (t.drop stride) hdlen with ⟨hnil, hdnil⟩ | ⟨c, cs, hrec, hflat⟩
        · exfalso
          have : t.length - stride = 0 := by
            rw [← List.length_drop, hdnil]
            rfl
          omega
        · refine Or.inr ⟨t.take maxSize, c :: cs, by rw [hrec], ?_⟩
          have hc : c = (t.drop stride).take maxSize :=
            hardSliceAux_head_eq maxSize stride n (t.drop stride) c cs hdlen hrec
          have hrest : (cs.map (List.drop overlap)).flatten = (t.drop stride).drop c.length := by
            have := congrArg (List.drop c.length) hflat
            rwa [List.drop_left] at this
          have htlen : maxSize < t.length := hbig
          have hdroplen : (t.drop stride).length = t.length - stride := List.length_drop ..
          have hclen : c.length = min maxSize (t.length - stride) := by
            rw [hc, List.length_take, hdroplen]
          simp only [List.map_cons, List.flatten_cons]
          -- goal: t.take maxSize ++ (c.drop overlap ++ flatten (map drop cs)) = t
          rw [hrest, hc]
          rw [List.drop_take, List.drop_drop, List.drop_drop]
          have hov : stride + overlap = maxSize := by omega
          rw [hov]
          -- goal: t.take maxSize ++ (take (maxSize - overlap) (t.drop maxSize) ++
          --        t.drop (stride + (t.drop stride).take maxSize |>.length ...)) = t
          rcases le_or_lt maxSize (t.length - stride) with hcase | hcase
          · have h1 : ((t.drop stride).take maxSize).length = maxSize := by
              rw [List.length_take, hdroplen]
              omega
            rw [h1]
            have h2 : stride + maxSize = maxSize + stride := by omega
            rw [h2, ← List.drop_drop]
            have h3 : maxSize - overlap = stride := by omega
            rw [h3, List.take_append_drop, List.take_append_drop]
          · have h1 : ((t.drop stride).take maxSize).length = t.length - stride := by
              rw [List.length_take, hdroplen]
              omega
            rw [h1]
            have h2 : t.drop (stride + (t.length - stride)) = [] := by
              apply List.drop_eq_nil_of_le
              omega
            rw [h2, List.append_nil]
            have h3 : (t.drop maxSize).length ≤ maxSize - overlap := by
              rw [List.length_drop]
              omega
            rw [List.take_of_length_le h3, List.take_append_drop]

theorem mergeLoop_reassemble (recurse : List Char → List (List Char)) (maxSize overlap : Nat)
    (hrec : ∀ p : List Char, ∃ ds : List Nat, ds.length = (recurse p).length ∧
      (∀ d ∈ ds, d ≤ overlap) ∧ (recurse p ≠ [] → ds.head? = some 0) ∧
      (List.zipWith List.drop ds (recurse p)).flatten <+ p) :
    ∀ (pieces : List (List Char)) (cur : List Char) (k : Nat), k ≤ overlap → k ≤ cur.length →
      ∃ ds : List Nat, ds.length = (mergeLoop recurse maxSize overlap cur pieces).length ∧
        (∀ d ∈ ds, d ≤ overlap) ∧
        (mergeLoop recurse maxSize overlap cur pieces ≠ [] → ds.head? = some k) ∧
        (List.zipWith List.drop ds (mergeLoop recurse maxSize overlap cur pieces)).flatten <+
          cur.drop k ++ pieces.flatten := by
  intro pieces
  induction pieces with
  | nil =>
    intro cur k hk hkc
    rw [mergeLoop]
    split
    · exact ⟨[], rfl, by simp, by simp, by simp⟩
    · exact ⟨[k], rfl, by simpa using hk, fun _ => rfl, by simp⟩
  | cons p ps ih =>
    intro cur k hk hkc
    rw [mergeLoop]
    split
    · next hp =>
      split
      · next hfit =>
        obtain ⟨ds, hlen, hbound, hhead, hsub⟩ :=
          ih (cur ++ p) k hk (le_trans hkc (by simp))
        refine ⟨ds, hlen, hbound, hhead, ?_⟩
        rw [List.drop_append_of_le_length hkc, List.append_assoc] at hsub
        simpa using hsub
      · next hnofit =>
        set j := min overlap (maxSize - p.length) with hj
        have hjov : j ≤ overlap := min_le_left _ _
        have hjcur : j ≤ cur.length := by
          simp only [not_le] at hnofit
          omega
        have hjlast : (lastN j cur).length = j := by
          rw [length_lastN]
          omega
        obtain ⟨ds, hlen, hbound, hhead, hsub⟩ :=
          ih (lastN j cur ++ p) j hjov (by simp [hjlast])
        have hdropj : (lastN j cur ++ p).drop j = p := by
          rw [List.drop_append_of_le_length (by omega), List.drop_eq_nil_of_le (by omega)]
          rfl
        rw [hdropj] at hsub
        refine ⟨k :: ds, by simpa using hlen, ?_, fun _ => rfl, ?_⟩
        · intro d hd
          rcases List.mem_cons.mp hd with rfl | hd
          · exact hk
          · exact hbound d hd
        · simp only [List.zipWith_cons_cons, List.flatten_cons]
          exact (hsub.append_left (cur.drop k)).trans (by simp)
    · next hp =>
      obtain ⟨dsr, hrlen, hrbound, hrhead, hrsub⟩ := hrec p
      obtain ⟨ds2, h2len, h2bound, h2head, h2sub⟩ := ih [] 0 (Nat.zero_le _) (Nat.zero_le _)
      simp only [List.drop_nil, List.nil_append] at h2sub
      split
      · next hcur =>
        have hcur' : cur = [] := by simpa [List.isEmpty_iff] using hcur
        have hk0 : k = 0 := by
          subst hcur'
          simpa using hkc
        subst hk0
        refine ⟨dsr ++ ds2, by simp [hrlen, h2len], ?_, ?_, ?_⟩
        · intro d hd
          rcases List.mem_append.mp hd with hd | hd
          · exact hrbound d hd
          · exact h2bound d hd
        · intro hne
          cases hr : recurse p with
          | nil =>
            have : dsr = [] := List.eq_nil_of_length_eq_zero (by simp [hrlen, hr])
            subst this
            simp only [List.nil_append, hr] at hne ⊢
            exact h2head (by simpa using hne)
          | cons a as =>
            rw [List.head?_append, hrhead (by simp [hr])]
            rfl
        · subst hcur'
          simp only [List.nil_append, List.drop_nil, List.flatten_cons]
          rw [List.zipWith_append _ _ _ _ _ hrlen, List.flatten_append]
          exact hrsub.append h2sub
      · next hcur =>
        refine ⟨k :: (dsr ++ ds2), by simp [hrlen, h2len], ?_, fun _ => rfl, ?_⟩
        · intro d hd
          rcases List.mem_cons.mp hd with rfl | hd
          · exact hk
          · rcases List.mem_append.mp hd with hd | hd
            · exact hrbound d hd
            · exact h2bound d hd
        · have hzip : List.zipWith List.drop (k :: (dsr ++ ds2))
              ([cur] ++ recurse p ++ mergeLoop recurse maxSize overlap [] ps) =
              cur.drop k :: List.zipWith List.drop (dsr ++ ds2)
                (recurse p ++ mergeLoop recurse maxSize overlap [] ps) := rfl
          rw [hzip, List.flatten_cons, List.zipWith_append _ _ _ _ _ hrlen, List.flatten_append,
            List.flatten_cons]
          exact (hrsub.append h2sub).append_left (cur.drop k)

theorem splitSeps_reassemble (maxSize overlap : Nat) (ho : overlap < maxSize) :
    ∀ (seps : List (List Char)) (text : List Char),
      ∃ ds : List Nat, ds.length = (splitSeps maxSize overlap seps text).length ∧
        (∀ d ∈ ds, d ≤ overlap) ∧
        (splitSeps maxSize overlap seps text ≠ [] → ds.head? = some 0) ∧
        (List.zipWith List.drop ds (splitSeps maxSize overlap seps text)).flatten <+ text := by
  intro seps
  induction seps with
  | nil =>
    intro text
    rw [splitSeps]
    rcases hardSliceAux_reassemble maxSize overlap ho text.length text le_rfl with
      ⟨hnil, htext⟩ | ⟨c, cs, hcons, hflat⟩
    · rw [hardSlice, hnil]
      exact ⟨[], rfl, by simp, by simp, by simp⟩
    · rw [hardSlice, hcons]
      refine ⟨0 :: List.replicate cs.length overlap, by simp, ?_, fun _ => rfl, ?_⟩
      · intro d hd
        rcases List.mem_cons.mp hd with rfl | hd
        · exact Nat.zero_le _
        · exact le_of_eq (List.mem_replicate.mp hd).2
      · rw [List.zipWith_cons_cons, zipWith_drop_replicate, List.flatten_cons, List.drop_zero,
          hflat]
  | cons sep rest ih =>
    intro text
    rw [splitSeps]
    split
    · next hsmall =>
      split
      · next hempty =>
        exact ⟨[], rfl, by simp, by simp, by simp⟩
      · exact ⟨[0], rfl, by simp, fun _ => rfl, by simp⟩
    · split
      · next hocc =>
        obtain ⟨ds, hlen, hbound, hhead, hsub⟩ :=
          mergeLoop_reassemble (splitSeps maxSize overlap rest) maxSize overlap ih
            (splitOnSep sep text) [] 0 (Nat.zero_le _) (Nat.zero_le _)
        simp only [List.drop_nil, List.nil_append] at hsub
        exact ⟨ds, hlen, hbound, hhead, hsub.trans (splitOnSep_flatten_sublist sep text)⟩
      · exact ih text

/-- C2 (amended): concatenating the chunk sequence with the inter-chunk
overlaps removed reconstructs the original text up to the separator
occurrences dropped at the cut points: there are per-gap overlap widths, each
at most `overlap` (the first chunk keeping all its characters), whose removal
makes the concatenation an order-preserving subsequence of the input — chunk
order follows text order and no characters are reordered or duplicated, but
the dropped separators make the reconstruction lossy in general. -/
theorem split_text_reassembles (maxSize overlap : Nat) (text : List Char)
    (hm : 0 < maxSize) (ho : overlap < maxSize) :
    ∃ ds : List Nat, ds.length = (split_text maxSize overlap text).length ∧
      (∀ d ∈ ds, d ≤ overlap) ∧
      (split_text maxSize overlap text ≠ [] → ds.head? = some 0) ∧
      (List.zipWith List.drop ds (split_text maxSize overlap text)).flatten <+ text :=
  splitSeps_reassemble maxSize overlap ho defaultSeparators text

/-- Witness for the amended C2 at a concrete configuration. -/
theorem split_text_reassembles_witness :
    0 < 3 ∧ 1 < 3 ∧
      ∃ ds : List Nat, ds.length = (split_text 3 1 (("ab cd e").toList)).length ∧
        (∀ d ∈ ds, d ≤ 1) ∧
        (split_text 3 1 (("ab cd e").toList) ≠ [] → ds.head? = some 0) ∧
        (List.zipWith List.drop ds (split_text 3 1 (("ab cd e").toList))).flatten <+
          ("ab cd e").toList :=
  ⟨by decide, by decide, split_text_reassembles 3 1 (("ab cd e").toList) (by decide) (by decide)⟩

/-- C2 counterexample: chunking "a b" with chunk_size 2 and overlap 0 yields
the single chunk "ab".  The separator space has been dropped, so
concatenating the chunk sequence (no inter-chunk overlap exists to remove)
does not reconstruct the original text: reconstruction is not lossless. -/
theorem split_text_reconstruction_fails :
    split_text 2 0 (("a b").toList) = [['a', 'b']] ∧
      (split_text 2 0 (("a b").toList)).flatten ≠ ("a b").toList := by
  exact ⟨by decide, by decide⟩

/-! ## Retrieval (C3) -/

/-- C3: for every stored collection and every query with `n_results > 0`,
`search_documents` returns at most `n_results` results ordered by
non-decreasing distance; a collection with fewer than `n_results` entries
yields all of them, and the empty collection yields the empty sequence
rather than an error (the lookup is a total function). -/
theorem search_documents_spec (dist : List ℚ → List ℚ → ℚ) (embed : String → List ℚ)
    (collection : List IndexEntry) (query : String) (n_results : Nat) (hk : 0 < n_results) :
    (search_documents dist embed collection query n_results).length ≤ n_results ∧
    List.Sorted (fun a b => a.distance ≤ b.distance)
      (search_documents dist embed collection query n_results) ∧
    (collection.length < n_results →
      (search_documents dist embed collection query n_results).length = collection.length) ∧
    (collection = [] → search_documents dist embed collection query n_results = []) := by
  refine ⟨?_, ?_, ?_, ?_⟩
  · simp only [search_documents, List.length_take]
    omega
  · exact List.Pairwise.sublist (List.take_sublist _ _)
      (List.sorted_insertionSort (fun a b : SearchResult => a.distance ≤ b.distance) _)
  · intro h
    simp only [search_documents, List.length_take, List.length_insertionSort, List.length_map]
    omega
  · intro h
    subst h
    simp [search_documents]

/-- Witness for C3 at a concrete two-entry collection and `n_results = 3`. -/
theorem search_documents_spec_witness :
    0 < 3 ∧
    ((search_documents (fun _ _ => 0) (fun _ => [])
        [⟨("a"), ("ta"), [], []⟩, ⟨("b"), ("tb"), [], []⟩] ("q") 3).length ≤ 3 ∧
      List.Sorted (fun a b => a.distance ≤ b.distance)
        (search_documents (fun _ _ => 0) (fun _ => [])
          [⟨("a"), ("ta"), [], []⟩, ⟨("b"), ("tb"), [], []⟩] ("q") 3) ∧
      (([(⟨("a"), ("ta"), [], []⟩ : IndexEntry), ⟨("b"), ("tb"), [], []⟩]).length < 3 →
        (search_documents (fun _ _ => 0) (fun _ => [])
          [⟨("a"), ("ta"), [], []⟩, ⟨("b"), ("tb"), [], []⟩] ("q") 3).length =
          ([(⟨("a"), ("ta"), [], []⟩ : IndexEntry), ⟨("b"), ("tb"), [], []⟩]).length) ∧
      (([(⟨("a"), ("ta"), [], []⟩ : IndexEntry), ⟨("b"), ("tb"), [], []⟩]) = [] →
        search_documents (fun _ _ => 0) (fun _ => [])
          [⟨("a"), ("ta"), [], []⟩, ⟨("b"), ("tb"), [], []⟩] ("q") 3 = [])) :=
  ⟨by decide,
    search_documents_spec (fun _ _ => 0) (fun _ => [])
      [⟨("a"), ("ta"), [], []⟩, ⟨("b"), ("tb"), [], []⟩] ("q") 3 (by decide)⟩

/-! ## Pipeline structure (C4) -/

/-- C4: for every question and every `n_results`, `query` returns a record
whose question field equals the input verbatim, whose sources field is
exactly the sequence returned by the search step in the returned order, and
whose answer is the output of the chat collaborator on the prompt embedding the
retrieved chunk texts concatenated in that order, joined by the fixed
blank-line delimiter. -/
theorem query_structure (search : String → Nat → List SearchResult) (chat : String → String)
    (question : String) (n_results : Nat) :
    (CoreRAG.query search chat question n_results).question = question ∧
    (CoreRAG.query search chat question n_results).sources = search question n_results ∧
    (CoreRAG.query search chat question n_results).answer =
      chat (build_prompt
        (String.intercalate ("\n\n") ((search question n_results).map SearchResult.text))
        question) :=
  ⟨rfl, rfl, rfl⟩

/-! ## Prompt contract (C6) -/

/-- C6 counterexample: in the messages actually handed to the collaborator
the instruction about insufficient context does not follow the question
inside the prompt — the user prompt contains no such instruction at all (it
ends with the question and the answer cue); the instruction lives in the
system message, which precedes the context and the question. -/
theorem prompt_instruction_order_fails :
    SimpleRAG.generate_messages ("QQ") [] =
      [ { role := Role.system, content := system_instruction },
        { role := Role.user, content :=
          "Based on the following context, please answer the question.\n\nContext:\n\n\nQuestion: QQ\n\nAnswer:" } ] ∧
    containsSeq (("contain relevant information").toList)
      ((build_prompt ("CTX") ("QQ")).toList) = false ∧
    containsSeq (("say so clearly").toList) ((build_prompt ("CTX") ("QQ")).toList) = false ∧
    containsSeq (("contain relevant information").toList) (system_instruction.toList) = true :=
  ⟨rfl, by decide, by decide, by decide⟩

/-- C6 (amended): the collaborator receives exactly two messages: first the
system instruction stating to answer from the provided context and to say so
clearly when the context lacks relevant information, then the user prompt
consisting of a context block followed by the literal question and an answer
cue.  The insufficiency instruction precedes the context and the question
instead of following them. -/
theorem generate_messages_structure (query : String) (context_docs : List SearchResult) :
    SimpleRAG.generate_messages query context_docs =
      [ { role := Role.system, content := system_instruction },
        { role := Role.user, content :=
          "Based on the following context, please answer the question.\n\nContext:\n" ++
            context_join context_docs ++ "\n\nQuestion: " ++ query ++ "\n\nAnswer:" } ] ∧
    containsSeq (("contain relevant information, say so clearly.").toList)
      (system_instruction.toList) = true :=
  ⟨rfl, by decide⟩

/-! ## Failure propagation (C7) -/

/-- C7: any failure raised by the search step or by the generation
collaborator inside `query` propagates to the caller unchanged, with no
retry; on a generation failure the result is the bare error, so the already
computed search results are discarded and not returned in any form. -/
theorem query_failure_propagates {ε : Type}
    (search : String → Nat → Except ε (List SearchResult)) (chat : String → Except ε String)
    (question : String) (n_results : Nat) :
    (∀ e, search question n_results = Except.error e →
      CoreRAG.queryE search chat question n_results = Except.error e) ∧
    (∀ docs e, search question n_results = Except.ok docs →
      chat (build_prompt (context_join docs) question) = Except.error e →
      CoreRAG.queryE search chat question n_results = Except.error e) := by
  constructor
  · intro e he
    simp [CoreRAG.queryE, he]
  · intro docs e hs hc
    simp [CoreRAG.queryE, CoreRAG.generate_responseE, hs, hc]

/-- Witness for C7 with concrete failing collaborators. -/
theorem query_failure_propagates_witness :
    CoreRAG.queryE (fun _ _ => Except.error ("search down"))
      (fun _ => Except.ok ("answer")) ("q") 3 = Except.error ("search down") ∧
    CoreRAG.queryE (fun _ _ => Except.ok ([]))
      (fun _ => Except.error ("generation down")) ("q") 3 =
      Except.error ("generation down") :=
  ⟨(query_failure_propagates (fun _ _ => Except.error ("search down"))
      (fun _ => Except.ok ("answer")) ("q") 3).1 ("search down") rfl,
   (query_failure_propagates (fun _ _ => Except.ok ([]))
      (fun _ => Except.error ("generation down")) ("q") 3).2 [] ("generation down") rfl rfl⟩

/-! ## Parameter validation (C8) -/

/-- C8: constructing the chunker with invalid parameters — chunk size at most
zero, overlap at least the chunk size, or negative overlap — yields the
chunking-parameter error before any splitting work begins, while valid
parameters construct the chunker. -/
theorem init_validates_params (chunk_size chunk_overlap : Int) :
    ((chunk_size ≤ 0 ∨ chunk_overlap ≥ chunk_size ∨ chunk_overlap < 0) →
      DocProcessor.init chunk_size chunk_overlap = Except.error ChunkingError.invalidParams) ∧
    (0 < chunk_size → 0 ≤ chunk_overlap → chunk_overlap < chunk_size →
      DocProcessor.init chunk_size chunk_overlap =
        Except.ok (chunk_size.toNat, chunk_overlap.toNat)) := by
  constructor
  · intro h
    simp [DocProcessor.init, h]
  · intro h1 h2 h3
    have hno : ¬(chunk_size ≤ 0 ∨ chunk_overlap ≥ chunk_size ∨ chunk_overlap < 0) := by
      push_neg
      exact ⟨by omega, by omega, by omega⟩
    simp [DocProcessor.init, hno]

/-- Witness for C8 at one invalid and one valid configuration. -/
theorem init_validates_params_witness :
    DocProcessor.init (-1) 0 = Except.error ChunkingError.invalidParams ∧
    DocProcessor.init 10 2 = Except.ok (10, 2) :=
  ⟨(init_validates_params (-1) 0).1 (Or.inl (by decide)),
   (init_validates_params 10 2).2 (by decide) (by decide) (by decide)⟩

/-! ## Batch insertion (C9, C10) -/

theorem buildBatch_ok (embed : String → Except String (List ℚ)) :
    ∀ (documents : List DocInput) (i : Nat) (entries : List CollEntry),
      buildBatch embed i documents = Except.ok entries →
      entries.length = documents.length ∧
        ∀ doc ∈ documents, ∃ v, embed doc.text = Except.ok v := by
  intro documents
  induction documents with
  | nil =>
    intro i entries h
    rw [buildBatch] at h
    simp only [Except.ok.injEq] at h
    subst h
    exact ⟨rfl, by simp⟩
  | cons doc rest ih =>
    intro i entries h
    rw [buildBatch] at h
    cases he : embed doc.text with
    | error e => rw [he] at h; simp at h
    | ok emb =>
      rw [he] at h
      cases hb : buildBatch embed (i + 1) rest with
      | error e => rw [hb] at h; simp at h
      | ok es =>
        rw [hb] at h
        simp only [Except.ok.injEq] at h
        subst h
        obtain ⟨hlen, hall⟩ := ih (i + 1) es hb
        refine ⟨by simp [hlen], ?_⟩
        intro d hd
        rcases List.mem_cons.mp hd with rfl | hd
        · exact ⟨emb, he⟩
        · exact hall d hd

theorem buildBatch_error (embed : String → Except String (List ℚ)) :
    ∀ (documents : List DocInput) (i : Nat),
      (∃ doc ∈ documents, ∃ e, embed doc.text = Except.error e) →
      ∃ e, buildBatch embed i documents = Except.error e := by
  intro documents
  induction documents with
  | nil =>
    intro i h
    simp at h
  | cons doc rest ih =>
    intro i h
    cases he : embed doc.text with
    | error e => exact ⟨e, by rw [buildBatch, he]⟩
    | ok emb =>
      obtain ⟨d, hd, e, hde⟩ := h
      rcases List.mem_cons.mp hd with rfl | hd
      · rw [he] at hde
        simp at hde
      · obtain ⟨e2, hb⟩ := ih (i + 1) (by exact ⟨d, hd, e, hde⟩)
        exact ⟨e2, by rw [buildBatch, he, hb]⟩

/-- C9: `add_documents` computes every embedding of the batch before the
single backend add call: on success the whole batch is appended at once, each
embedding having been obtained; an embedding failure yields the bare error,
so no document of the batch is persisted (all-or-nothing). -/
theorem add_documents_atomic (embed : String → Except String (List ℚ))
    (documents : List DocInput) (collection : List CollEntry) :
    (∀ newColl, SimpleRAG.add_documents embed documents collection = Except.ok newColl →
      ∃ entries, newColl = collection ++ entries ∧ entries.length = documents.length ∧
        ∀ doc ∈ documents, ∃ v, embed doc.text = Except.ok v) ∧
    ((∃ doc ∈ documents, ∃ e, embed doc.text = Except.error e) →
      ∃ e, SimpleRAG.add_documents embed documents collection = Except.error e) := by
  constructor
  · intro newColl h
    rw [SimpleRAG.add_documents] at h
    cases hb : buildBatch embed 0 documents with
    | error e => rw [hb] at h; simp at h
    | ok entries =>
      rw [hb] at h
      simp only [Except.ok.injEq] at h
      subst h
      obtain ⟨hlen, hall⟩ := buildBatch_ok embed documents 0 entries hb
      exact ⟨entries, rfl, hlen, hall⟩
  · intro hfail
    obtain ⟨e, hb⟩ := buildBatch_error embed documents 0 hfail
    exact ⟨e, by rw [SimpleRAG.add_documents, hb]⟩

/-- Witness for C9: a failing embedding aborts the whole batch. -/
theorem add_documents_atomic_witness :
    ∃ e, SimpleRAG.add_documents
        (fun t => if t = ("bad") then Except.error ("embedding down") else Except.ok [1])
        [⟨("good"), [], none⟩, ⟨("bad"), [], none⟩] [] = Except.error e :=
  (add_documents_atomic
      (fun t => if t = ("bad") then Except.error ("embedding down") else Except.ok [1])
      [⟨("good"), [], none⟩, ⟨("bad"), [], none⟩] []).2
    ⟨⟨("bad"), [], none⟩, by simp, ("embedding down"), by simp⟩

theorem buildBatch_ids (embed : String → Except String (List ℚ)) :
    ∀ (documents : List DocInput) (i : Nat) (entries : List CollEntry),
      buildBatch embed i documents = Except.ok entries →
      entries.map CollEntry.id =
        (documents.enumFrom i).map (fun p => p.2.id.getD ("doc_" ++ toString p.1)) := by
  intro documents
  induction documents with
  | nil =>
    intro i entries h
    rw [buildBatch] at h
    simp only [Except.ok.injEq] at h
    subst h
    rfl
  | cons doc rest ih =>
    intro i entries h
    rw [buildBatch] at h
    cases he : embed doc.text with
    | error e => rw [he] at h; simp at h
    | ok emb =>
      rw [he] at h
      cases hb : buildBatch embed (i + 1) rest with
      | error e => rw [hb] at h; simp at h
      | ok es =>
        rw [hb] at h
        simp only [Except.ok.injEq] at h
        subst h
        simp only [List.map_cons, List.enumFrom_cons]
        rw [ih (i + 1) es hb]

/-- C10: on success every document of the batch is persisted in input order —
a document lacking an id under the positional identifier `"doc_i"`, where `i`
is its zero-based index in the batch, and a document carrying an id under
that id unchanged. -/
theorem add_documents_ids (embed : String → Except String (List ℚ))
    (documents : List DocInput) (collection : List CollEntry) (newColl : List CollEntry)
    (h : SimpleRAG.add_documents embed documents collection = Except.ok newColl) :
    newColl.map CollEntry.id =
      collection.map CollEntry.id ++
        documents.enum.map (fun p => p.2.id.getD ("doc_" ++ toString p.1)) := by
  rw [SimpleRAG.add_documents] at h
  cases hb : buildBatch embed 0 documents with
  | error e => rw [hb] at h; simp at h
  | ok entries =>
    rw [hb] at h
    simp only [Except.ok.injEq] at h
    subst h
    rw [List.map_append, List.enum_eq_enumFrom, buildBatch_ids embed documents 0 entries hb]

/-- Witness for C10: a three-document batch with the middle document carrying
its own id. -/
theorem add_documents_ids_witness :
    SimpleRAG.add_documents (fun _ => Except.ok [1])
        [⟨("a"), [], none⟩, ⟨("b"), [], some ("X")⟩, ⟨("c"), [], none⟩] [] =
      Except.ok [⟨("doc_0"), ("a"), [], [1]⟩, ⟨("X"), ("b"), [], [1]⟩,
        ⟨("doc_2"), ("c"), [], [1]⟩] ∧
    ([(⟨("doc_0"), ("a"), [], [1]⟩ : CollEntry), ⟨("X"), ("b"), [], [1]⟩,
        ⟨("doc_2"), ("c"), [], [1]⟩]).map CollEntry.id = [("doc_0"), ("X"), ("doc_2")] := by
  refine ⟨rfl, ?_⟩
  have h := add_documents_ids (fun _ => Except.ok [1])
    [⟨("a"), [], none⟩, ⟨("b"), [], some ("X")⟩, ⟨("c"), [], none⟩] []
    [⟨("doc_0"), ("a"), [], [1]⟩, ⟨("X"), ("b"), [], [1]⟩, ⟨("doc_2"), ("c"), [], [1]⟩] rfl
  rw [h]
  rfl

end RagSpec
